import Mathlib

/-!
# Verification of the Milvus tiered-cache core and unary predicate executor

A shallow embedding, in Lean 4, of the parts of the repository needed to
settle the frozen claims: the integer-overflow pre-check and dispatch logic
of `PhyUnaryRangeFilterExpr` (`internal/core/src/exec/expression/UnaryExpr.cpp`),
the pin / load / error machinery of `CacheSlot`
(`internal/core/src/cachinglayer/CacheSlot.h`), the JSON data-scan row
kernels, and the text / n-gram match paths.

Machine integers are modelled as `Int` with explicit bounds; fallible C++
code (`ThrowInfo` / exceptions) is modelled with `Except`; per-cell state is
explicit.  Components of the repository that are referenced but whose
sources are not part of this snapshot (`ListNode`, `DList`, the `Translator`
implementation, the `SegmentExpr` cursor helpers, and the C enum
`CacheWarmupPolicy`) are modelled from the specification, and each such
definition says so in its doc comment.
-/

set_option autoImplicit false

namespace MilvusSpec

/-- Error kinds of `milvus::ErrorCode` that appear in the embedded code. -/
inductive ErrCode where
  | outOfRange
  | insufficientResource
  | dataTypeInvalid
  | opTypeInvalid
  | unsupportedOp
  | invalidParameter
  | unknownErr
  deriving DecidableEq, Repr

/-- The unary operator set of `proto::plan::OpType` used by
`PhyUnaryRangeFilterExpr`. -/
inductive OpType where
  | greaterThan
  | greaterEqual
  | lessThan
  | lessEqual
  | equal
  | notEqual
  | prefixMatch
  | postfixMatch
  | innerMatch
  | likeMatch
  | textMatch
  | phraseMatch
  deriving DecidableEq, Repr

/-- A result batch: the match bitmap and the valid bitmap, both of batch
length (`ColumnVector` with its `TargetBitmap` and valid `TargetBitmap`). -/
structure ScanResult where
  bits : List Bool
  valid : List Bool
  deriving DecidableEq, Repr

/-- Bitwise AND of two bitmaps (`res &= valid_res` in the source). -/
def andBits (a b : List Bool) : List Bool :=
  List.zipWith (· && ·) a b

/-- The representable range of an integral column type
(`std::numeric_limits<T>::lowest() / max()` for `T` ∈ int8/16/32/64). -/
structure IntTypeRange where
  lb : Int
  ub : Int
  deriving DecidableEq, Repr

def int8Range : IntTypeRange := ⟨-128, 127⟩
def int16Range : IntTypeRange := ⟨-32768, 32767⟩
def int32Range : IntTypeRange := ⟨-2147483648, 2147483647⟩
def int64Range : IntTypeRange := ⟨-9223372036854775808, 9223372036854775807⟩

/-- Source `milvus::query::lt_lb<T>(val)`: the literal is below the minimum
of the column type. -/
def ltLb (r : IntTypeRange) (val : Int) : Bool :=
  val < r.lb

/-- Source `milvus::query::gt_ub<T>(val)`: the literal is above the maximum
of the column type. -/
def gtUb (r : IntTypeRange) (val : Int) : Bool :=
  val > r.ub

/-- Source `milvus::query::out_of_range<T>(val)`: the literal is outside the
representable range of the column type. -/
def outOfRange (r : IntTypeRange) (val : Int) : Bool :=
  ltLb r val || gtUb r val

/-- Embedding of `PhyUnaryRangeFilterExpr::PreCheckOverflow` (UnaryExpr.cpp, lines
1606-1667), for an integral column type with range `r`.  The `valid` bitmap
is the one the source obtains from `ProcessChunksForValid`; the batch size
is its length.  Returns `none` when the literal is in range (the caller
proceeds to the scan), and the short-circuit result batch otherwise.
`res.set(); res &= valid_res` is `andBits (replicate n true) valid`;
the bitmap `TargetBitmap(batch_size)` starts all-false. -/
def preCheckOverflow (r : IntTypeRange) (op : OpType) (val : Int)
    (valid : List Bool) : Except ErrCode (Option ScanResult) :=
  if outOfRange r val then
    let n := valid.length
    match op with
    | .greaterThan | .greaterEqual =>
        if ltLb r val then
          .ok (some ⟨andBits (List.replicate n true) valid, valid⟩)
        else
          .ok (some ⟨List.replicate n false, valid⟩)
    | .lessThan | .lessEqual =>
        if gtUb r val then
          .ok (some ⟨andBits (List.replicate n true) valid, valid⟩)
        else
          .ok (some ⟨List.replicate n false, valid⟩)
    | .equal =>
        .ok (some ⟨List.replicate n false, valid⟩)
    | .notEqual =>
        .ok (some ⟨andBits (List.replicate n true) valid, valid⟩)
    | _ => .error .opTypeInvalid
  else
    .ok none

/-- Embedding of `PhyUnaryRangeFilterExpr::ExecRangeVisitorImplForIndex` (UnaryExpr.cpp,
lines 1515-1604) restricted to what decides the claims: it runs
`PreCheckOverflow` first and returns its batch when the literal overflows;
otherwise it produces the index-scan result (`ProcessIndexChunks`),
abstracted here as the argument `indexScan`. -/
def execRangeVisitorImplForIndex (r : IntTypeRange) (op : OpType) (val : Int)
    (valid : List Bool) (indexScan : ScanResult) : Except ErrCode ScanResult :=
  match preCheckOverflow r op val valid with
  | .error e => .error e
  | .ok (some res) => .ok res
  | .ok none => .ok indexScan

/-- Embedding of `PhyUnaryRangeFilterExpr::ExecRangeVisitorImplForData` (UnaryExpr.cpp,
lines 1669-1877) restricted likewise: `PreCheckOverflow` first, otherwise
the brute-force scan over the chunks (`ProcessDataChunks` /
`ProcessDataByOffsets`), abstracted as `dataScan`. -/
def execRangeVisitorImplForData (r : IntTypeRange) (op : OpType) (val : Int)
    (valid : List Bool) (dataScan : ScanResult) : Except ErrCode ScanResult :=
  match preCheckOverflow r op val valid with
  | .error e => .error e
  | .ok (some res) => .ok res
  | .ok none => .ok dataScan

/-!
## Tiered cache core: CacheSlot, cells, pinning and loading

Embeds `internal/core/src/cachinglayer/CacheSlot.h`.  The per-cell state
machine lives in `cachinglayer/lrucache/ListNode.h`, which is not part of
this source snapshot; its operations (`pin`, `set_error`, `mark_loaded`)
are modelled from the specification, section 4.2.
-/

/-- A memory/disk accounting pair (`milvus::cachinglayer::ResourceUsage`). -/
structure ResourceUsage where
  memoryBytes : Nat
  fileBytes : Nat
  deriving DecidableEq, Repr

def ResourceUsage.add (a b : ResourceUsage) : ResourceUsage :=
  ⟨a.memoryBytes + b.memoryBytes, a.fileBytes + b.fileBytes⟩

instance : Add ResourceUsage := ⟨ResourceUsage.add⟩

def ResourceUsage.zero : ResourceUsage := ⟨0, 0⟩

/-- Cell life-cycle states (spec section 4.2 / `ListNode::State`). -/
inductive CellState where
  | notLoaded
  | loading
  | loaded
  | errorState
  deriving DecidableEq, Repr

/-- One cache cell (`CacheSlot::CacheCell`): life-cycle state, pin count and
the estimated size the slot registered for it at construction
(`translator_->estimated_byte_size_of_cell`). The payload is opaque and is
not represented. -/
structure Cell where
  state : CellState
  pinCount : Nat
  size : ResourceUsage
  deriving DecidableEq, Repr

/-- Modelled from the spec: `ListNode::pin` (section 4.2; ListNode.h is not
in this snapshot).  Returns `need_load`, true exactly when the caller
observed the NOT_LOADED→LOADING edge; an ERROR cell is reset to NOT_LOADED
on the next pin attempt and then takes that edge.  Every pin increments the
pin count. -/
def pinCell (c : Cell) : Bool × Cell :=
  match c.state with
  | .notLoaded => (true, { c with state := .loading, pinCount := c.pinCount + 1 })
  | .errorState => (true, { c with state := .loading, pinCount := c.pinCount + 1 })
  | .loading => (false, { c with pinCount := c.pinCount + 1 })
  | .loaded => (false, { c with pinCount := c.pinCount + 1 })

/-- Modelled from the spec: `ListNode::set_error` (section 4.2): broadcast
failure; the cell enters ERROR and its pin count is reset. -/
def setErr (c : Cell) : Cell :=
  { c with state := .errorState, pinCount := 0 }

/-- Modelled from the spec: the effect of `CacheCell::set_cell` /
`ListNode::mark_loaded` on the cell state: LOADING→LOADED (idempotent when
already LOADED). -/
def markLoaded (c : Cell) : Cell :=
  { c with state := .loaded }

/-- Identifier mapping modes (`CellIdMappingMode`); CUSTOM carries the
translator's `cell_id_of`. -/
inductive CellIdMappingMode where
  | identical
  | alwaysZero
  | custom (cellIdFn : Nat → Nat)

/-- A cache slot (`CacheSlot<CellT>`): a fixed number of cells, the id
mapping mode, whether a `DList` (global budget) is attached, and the
translator's cache warmup policy as the underlying integer of the C enum
`CacheWarmupPolicy` (`common/type_c.h` is not in this snapshot; the policy
is modelled from the spec, section 6, as an enumerated config value). -/
structure CacheSlot where
  numCells : Nat
  cells : Nat → Cell
  mode : CellIdMappingMode
  hasDlist : Bool
  policy : Nat

/-- Write one cell back into the slot (`cells_[cid] = ...`). -/
def updateCell (slot : CacheSlot) (cid : Nat) (c : Cell) : CacheSlot :=
  { slot with cells := Function.update slot.cells cid c }

/-- Source `CacheSlot::cell_id_of` (CacheSlot.h, lines 221-231). -/
def cellIdOf (slot : CacheSlot) (uid : Nat) : Nat :=
  match slot.mode with
  | .identical => uid
  | .alwaysZero => 0
  | .custom f => f uid

/-- Insertion into the deduplicating set of involved cids
(`ska::flat_hash_set::insert`), modelled as an insertion-ordered list
without duplicates. -/
def insertDedup (l : List Nat) (x : Nat) : List Nat :=
  if x ∈ l then l else l ++ [x]

/-- Computation of `involved_cids` in `CacheSlot::PinCells` (CacheSlot.h,
lines 113-135): map uids to cids according to the mapping mode and
deduplicate; under ALWAYS_ZERO a non-empty uid list contributes the single
cid 0. -/
def involvedCids (slot : CacheSlot) (uids : List Nat) : List Nat :=
  match slot.mode with
  | .identical => uids.foldl insertDedup []
  | .alwaysZero => if uids.length > 0 then [0] else []
  | .custom f => uids.foldl (fun acc uid => insertDedup acc (f uid)) []

/-- Accumulator of the pin loop in `CacheSlot::PinInternal` (CacheSlot.h,
lines 204-211): the slot after the pins, the `need_load_cids` in insertion
order, and `resource_needed`. -/
structure PinPhase where
  slot : CacheSlot
  needLoad : List Nat
  resourceNeeded : ResourceUsage

/-- One step per involved cid of the pin loop of `CacheSlot::PinInternal`:
pin the cell; a cell whose pin observed the NOT_LOADED→LOADING edge joins
`need_load_cids` and contributes its estimated size to `resource_needed`. -/
def pinPhaseGo (slot : CacheSlot) (nl : List Nat) (ru : ResourceUsage) :
    List Nat → PinPhase
  | [] => ⟨slot, nl, ru⟩
  | cid :: rest =>
      let r := pinCell (slot.cells cid)
      let slot' := updateCell slot cid r.2
      if r.1 then
        pinPhaseGo slot' (nl ++ [cid]) (ru + (slot.cells cid).size) rest
      else
        pinPhaseGo slot' nl ru rest

/-- The pin loop of `CacheSlot::PinInternal`: pin every involved cell (all
pins are attached before any load starts), collecting the need-load set and
the resource reservation amount. -/
def pinPhase (slot : CacheSlot) (cids : List Nat) : PinPhase :=
  pinPhaseGo slot [] ResourceUsage.zero cids

/-- The `set_error` loop of `CacheSlot::RunLoad`'s catch block (CacheSlot.h,
lines 293-295): every cell the load had assumed responsibility for receives
the wrapped error. -/
def setErrorAll (slot : CacheSlot) (cids : List Nat) : CacheSlot :=
  cids.foldl (fun s cid => updateCell s cid (setErr (s.cells cid))) slot

/-- The `set_cell` loop of `CacheSlot::RunLoad` (CacheSlot.h, lines
277-282): each cell returned by the translator is marked LOADED (the
translator may return cids beyond those requested). -/
def setCellAll (slot : CacheSlot) (resultCids : List Nat) : CacheSlot :=
  resultCids.foldl (fun s cid => updateCell s cid (markLoaded (s.cells cid))) slot

/-- Observable outcome of `CacheSlot::RunLoad`: the slot afterwards, the
cid list the translator's `get_cells` was invoked with (`none` when it was
never invoked), and the amount given back to the budget via
`dlist_->releaseMemory`. -/
structure LoadOutcome where
  slot : CacheSlot
  translatorCalledWith : Option (List Nat)
  releasedAmount : ResourceUsage

/-- Embedding of `CacheSlot::RunLoad` (CacheSlot.h, lines 233-301).
`reserveOk` is the boolean returned by `dlist_->reserveMemoryWithTimeout`
(DList.h is not in this snapshot; the reservation outcome is an input).
`translatorOutcome` is the behaviour of `translator_->get_cells` on the
need-load set: either the returned cids or a thrown exception.  A failed
reservation throws `InsufficientResource` before `get_cells`; the catch
block pushes `set_error` to every elected cell and releases the reservation
unless the reservation itself failed. -/
def runLoad (slot : CacheSlot) (cids : List Nat) (resourceNeeded : ResourceUsage)
    (reserveOk : Bool) (translatorOutcome : Except Unit (List Nat)) : LoadOutcome :=
  if slot.hasDlist && !reserveOk then
    { slot := setErrorAll slot cids
      translatorCalledWith := none
      releasedAmount := ResourceUsage.zero }
  else
    match translatorOutcome with
    | .error _ =>
        { slot := setErrorAll slot cids
          translatorCalledWith := some cids
          releasedAmount := if slot.hasDlist then resourceNeeded else ResourceUsage.zero }
    | .ok results =>
        { slot := setCellAll slot results
          translatorCalledWith := some cids
          releasedAmount := ResourceUsage.zero }

/-- Observable outcome of `CacheSlot::PinInternal`. -/
structure PinOutcome where
  slot : CacheSlot
  needLoad : List Nat
  resourceNeeded : ResourceUsage
  translatorCalledWith : Option (List Nat)
  releasedAmount : ResourceUsage

/-- Embedding of `CacheSlot::PinInternal` (CacheSlot.h, lines 187-219):
validate every requested cid against the cell count before pinning anything
(`ThrowInfo(OutOfRange, ...)`), then pin all involved cells, and run the
load only when some cell needs loading. -/
def pinInternal (slot : CacheSlot) (cids : List Nat) (reserveOk : Bool)
    (translatorOutcome : Except Unit (List Nat)) : Except ErrCode PinOutcome :=
  if cids.any (fun cid => slot.numCells ≤ cid) then
    .error .outOfRange
  else
    let p := pinPhase slot cids
    if p.needLoad.isEmpty then
      .ok ⟨p.slot, p.needLoad, p.resourceNeeded, none, ResourceUsage.zero⟩
    else
      let l := runLoad p.slot p.needLoad p.resourceNeeded reserveOk translatorOutcome
      .ok ⟨l.slot, p.needLoad, p.resourceNeeded, l.translatorCalledWith, l.releasedAmount⟩

/-- Embedding of `CacheSlot::PinCells` (CacheSlot.h, lines 106-138): map
the uids onto deduplicated cids and hand them to `PinInternal`. -/
def pinCells (slot : CacheSlot) (uids : List Nat) (reserveOk : Bool)
    (translatorOutcome : Except Unit (List Nat)) : Except ErrCode PinOutcome :=
  pinInternal slot (involvedCids slot uids) reserveOk translatorOutcome

/-- Value of `CacheWarmupPolicy::CacheWarmupPolicy_Disable` (modelled from
the spec: the policy enum is declared in `common/type_c.h`, not in this
snapshot). -/
def cacheWarmupPolicyDisable : Nat := 0

/-- Value of `CacheWarmupPolicy::CacheWarmupPolicy_Sync` (modelled from the
spec, as above). -/
def cacheWarmupPolicySync : Nat := 1

/-- Embedding of `CacheSlot::Warmup` (CacheSlot.h, lines 79-93): return
immediately when the policy equals Disable; otherwise pin all cells in
`[0, num_cells)` through `PinCells` and drop the accessor. Returns `none`
when no pin call was issued. -/
def warmup (slot : CacheSlot) (reserveOk : Bool)
    (translatorOutcome : Except Unit (List Nat)) : Except ErrCode (Option PinOutcome) :=
  if slot.policy = cacheWarmupPolicyDisable then
    .ok none
  else
    (pinCells slot (List.range slot.numCells) reserveOk translatorOutcome).map some

/-- Sum of the estimated cell sizes over a cid list, accumulated the way
`resource_needed +=` does. -/
def sizeSumFrom (slot : CacheSlot) (init : ResourceUsage) (cids : List Nat) : ResourceUsage :=
  cids.foldl (fun a cid => a + (slot.cells cid).size) init

/-! ### Characterization lemmas for the cache loops -/

theorem pinCell_pinCount (c : Cell) : (pinCell c).2.pinCount = c.pinCount + 1 := by
  rcases c with ⟨s, p, z⟩
  cases s <;> rfl

theorem pinCell_size (c : Cell) : (pinCell c).2.size = c.size := by
  rcases c with ⟨s, p, z⟩
  cases s <;> rfl

theorem updateCell_cells (slot : CacheSlot) (cid : Nat) (c : Cell) (i : Nat) :
    (updateCell slot cid c).cells i = if i = cid then c else slot.cells i := by
  simp [updateCell, Function.update_apply]

theorem sizeSumFrom_congr (l : List Nat) :
    ∀ (ru : ResourceUsage) (s t : CacheSlot),
      (∀ i ∈ l, s.cells i = t.cells i) →
      sizeSumFrom s ru l = sizeSumFrom t ru l := by
  induction l with
  | nil => intro ru s t _; rfl
  | cons c rest ih =>
    intro ru s t h
    simp only [sizeSumFrom, List.foldl_cons] at *
    rw [h c (by simp)]
    exact ih _ s t (fun i hi => h i (by simp [hi]))

theorem pinPhaseGo_eq (cids : List Nat) :
    ∀ (slot : CacheSlot) (nl : List Nat) (ru : ResourceUsage), cids.Nodup →
      pinPhaseGo slot nl ru cids =
        ⟨{ slot with
            cells := fun i =>
              if i ∈ cids then (pinCell (slot.cells i)).2 else slot.cells i },
         nl ++ cids.filter (fun cid => (pinCell (slot.cells cid)).1),
         sizeSumFrom slot ru (cids.filter (fun cid => (pinCell (slot.cells cid)).1))⟩ := by
  induction cids with
  | nil =>
    intro slot nl ru _
    simp [pinPhaseGo, sizeSumFrom]
  | cons c rest ih =>
    intro slot nl ru hnd
    rw [List.nodup_cons] at hnd
    obtain ⟨hc, hrest⟩ := hnd
    have hcells : ∀ i ∈ rest,
        (updateCell slot c (pinCell (slot.cells c)).2).cells i = slot.cells i := by
      intro i hi
      rw [updateCell_cells, if_neg]
      intro hic
      exact hc (hic ▸ hi)
    have hfilter : rest.filter
          (fun cid => (pinCell ((updateCell slot c (pinCell (slot.cells c)).2).cells cid)).1)
        = rest.filter (fun cid => (pinCell (slot.cells cid)).1) := by
      apply List.filter_congr
      intro x hx
      rw [hcells x hx]
    have hcellfun : ∀ i,
        (if i ∈ rest
          then (pinCell ((updateCell slot c (pinCell (slot.cells c)).2).cells i)).2
          else (updateCell slot c (pinCell (slot.cells c)).2).cells i)
        = (if i ∈ c :: rest then (pinCell (slot.cells i)).2 else slot.cells i) := by
      intro i
      by_cases hir : i ∈ rest
      · rw [if_pos hir, if_pos (by simp [hir]), hcells i hir]
      · by_cases hic : i = c
        · subst hic
          rw [if_neg hir, if_pos (by simp), updateCell_cells, if_pos rfl]
        · rw [if_neg hir, if_neg (by simp [hic, hir]), updateCell_cells, if_neg hic]
    have hslot : ({ (updateCell slot c (pinCell (slot.cells c)).2) with
          cells := fun i =>
            if i ∈ rest
              then (pinCell ((updateCell slot c (pinCell (slot.cells c)).2).cells i)).2
              else (updateCell slot c (pinCell (slot.cells c)).2).cells i } : CacheSlot)
        = { slot with
            cells := fun i =>
              if i ∈ c :: rest then (pinCell (slot.cells i)).2 else slot.cells i } :=
      congrArg
        (fun f => CacheSlot.mk slot.numCells f slot.mode slot.hasDlist slot.policy)
        (funext hcellfun)
    by_cases hp : (pinCell (slot.cells c)).1 = true
    · simp only [pinPhaseGo]
      rw [if_pos hp, ih _ _ _ hrest, hfilter]
      have hsum : sizeSumFrom (updateCell slot c (pinCell (slot.cells c)).2)
            (ru + (slot.cells c).size) (rest.filter (fun cid => (pinCell (slot.cells cid)).1))
          = sizeSumFrom slot (ru + (slot.cells c).size)
            (rest.filter (fun cid => (pinCell (slot.cells cid)).1)) := by
        apply sizeSumFrom_congr
        intro i hi
        exact hcells i (List.mem_of_mem_filter hi)
      rw [hsum, hslot]
      simp [List.filter_cons, hp, sizeSumFrom]
    · simp only [pinPhaseGo]
      rw [if_neg hp, ih _ _ _ hrest, hfilter]
      have hsum : sizeSumFrom (updateCell slot c (pinCell (slot.cells c)).2)
            ru (rest.filter (fun cid => (pinCell (slot.cells cid)).1))
          = sizeSumFrom slot ru
            (rest.filter (fun cid => (pinCell (slot.cells cid)).1)) := by
        apply sizeSumFrom_congr
        intro i hi
        exact hcells i (List.mem_of_mem_filter hi)
      rw [hsum, hslot]
      simp [List.filter_cons, hp, sizeSumFrom]

theorem pinPhase_eq (slot : CacheSlot) (cids : List Nat) (h : cids.Nodup) :
    pinPhase slot cids =
      ⟨{ slot with
          cells := fun i =>
            if i ∈ cids then (pinCell (slot.cells i)).2 else slot.cells i },
       cids.filter (fun cid => (pinCell (slot.cells cid)).1),
       sizeSumFrom slot ResourceUsage.zero
         (cids.filter (fun cid => (pinCell (slot.cells cid)).1))⟩ := by
  simpa [pinPhase] using pinPhaseGo_eq cids slot [] ResourceUsage.zero h

theorem setErrorAll_cells (cids : List Nat) :
    ∀ (slot : CacheSlot), cids.Nodup → ∀ i,
      (setErrorAll slot cids).cells i =
        if i ∈ cids then setErr (slot.cells i) else slot.cells i := by
  induction cids with
  | nil => intro slot _ i; simp [setErrorAll]
  | cons c rest ih =>
    intro slot hnd i
    rw [List.nodup_cons] at hnd
    obtain ⟨hc, hrest⟩ := hnd
    have step : setErrorAll slot (c :: rest)
        = setErrorAll (updateCell slot c (setErr (slot.cells c))) rest := rfl
    rw [step, ih _ hrest i]
    by_cases hir : i ∈ rest
    · have hic : i ≠ c := fun h => hc (h ▸ hir)
      rw [if_pos hir, if_pos (by simp [hir]), updateCell_cells, if_neg hic]
    · by_cases hic : i = c
      · subst hic
        rw [if_neg hir, if_pos (by simp), updateCell_cells, if_pos rfl]
      · rw [if_neg hir, if_neg (by simp [hic, hir]), updateCell_cells, if_neg hic]

theorem setErrorAll_metadata (cids : List Nat) (slot : CacheSlot) :
    (setErrorAll slot cids).numCells = slot.numCells
    ∧ (setErrorAll slot cids).hasDlist = slot.hasDlist := by
  induction cids generalizing slot with
  | nil => exact ⟨rfl, rfl⟩
  | cons c rest ih => exact ih (updateCell slot c (setErr (slot.cells c)))

theorem setCellAll_state (resultCids : List Nat) :
    ∀ (slot : CacheSlot) (i : Nat),
      ((setCellAll slot resultCids).cells i).state = .loaded
        → i ∈ resultCids ∨ (slot.cells i).state = .loaded := by
  induction resultCids with
  | nil => intro slot i h; exact Or.inr h
  | cons c rest ih =>
    intro slot i h
    have step : setCellAll slot (c :: rest)
        = setCellAll (updateCell slot c (markLoaded (slot.cells c))) rest := rfl
    rw [step] at h
    rcases ih _ i h with hmem | hstate
    · exact Or.inl (by simp [hmem])
    · by_cases hic : i = c
      · exact Or.inl (by simp [hic])
      · rw [updateCell_cells, if_neg hic] at hstate
        exact Or.inr hstate

theorem foldl_insertDedup_nodup (g : Nat → Nat) (uids : List Nat) :
    ∀ (init : List Nat), init.Nodup →
      (uids.foldl (fun acc uid => insertDedup acc (g uid)) init).Nodup := by
  induction uids with
  | nil => intro init h; exact h
  | cons u rest ih =>
    intro init h
    simp only [List.foldl_cons]
    apply ih
    unfold insertDedup
    by_cases hm : g u ∈ init
    · rw [if_pos hm]; exact h
    · rw [if_neg hm]
      simp only [List.nodup_append, List.nodup_cons]
      refine ⟨h, by simp, ?_⟩
      intro a ha hax
      simp only [List.mem_singleton] at hax
      exact hm (hax ▸ ha)

theorem involvedCids_nodup (slot : CacheSlot) (uids : List Nat) :
    (involvedCids slot uids).Nodup := by
  unfold involvedCids
  cases h : slot.mode with
  | identical =>
    exact foldl_insertDedup_nodup (fun u => u) uids [] (by simp)
  | alwaysZero =>
    show (if uids.length > 0 then ([0] : List Nat) else []).Nodup
    split <;> simp
  | custom f =>
    exact foldl_insertDedup_nodup f uids [] (by simp)

theorem foldl_insertDedup_of_nodup (l : List Nat) :
    ∀ (init : List Nat), (init ++ l).Nodup → l.foldl insertDedup init = init ++ l := by
  induction l with
  | nil => intro init _; simp
  | cons c rest ih =>
    intro init h
    have hc : c ∉ init := by
      intro hmem
      rcases List.nodup_append.mp h with ⟨_, _, hdisj⟩
      exact hdisj hmem (by simp)
    simp only [List.foldl_cons]
    rw [insertDedup, if_neg hc, ih (init ++ [c]) (by simpa using h)]
    simp

theorem runLoad_translatorCalledWith (slot : CacheSlot) (cids : List Nat)
    (ru : ResourceUsage) (reserveOk : Bool) (tro : Except Unit (List Nat)) :
    (runLoad slot cids ru reserveOk tro).translatorCalledWith = none
    ∨ (runLoad slot cids ru reserveOk tro).translatorCalledWith = some cids := by
  unfold runLoad
  split
  · exact Or.inl rfl
  · cases tro with
    | error e => exact Or.inr rfl
    | ok results => exact Or.inr rfl

/-- C2: for every load attempt started by a pin call, if the resource
reservation fails the Translator is never invoked (the outcome does not
depend on it), every cell elected for loading receives `set_error`, and no
resources are released; if instead the Translator throws after a successful
reservation, every elected cell receives the wrapped error and the full
reserved amount is released back to the budget.  In both failure cases no
cell transitions to LOADED. -/
theorem c2_run_load_failure (slot : CacheSlot) (cids : List Nat)
    (ru : ResourceUsage) (tro : Except Unit (List Nat))
    (hnd : cids.Nodup) (hdl : slot.hasDlist = true) :
    ((runLoad slot cids ru false tro).translatorCalledWith = none
      ∧ runLoad slot cids ru false tro = runLoad slot cids ru false (.error ())
      ∧ (∀ cid ∈ cids,
          ((runLoad slot cids ru false tro).slot.cells cid).state = .errorState)
      ∧ (runLoad slot cids ru false tro).releasedAmount = ResourceUsage.zero)
    ∧ ((runLoad slot cids ru true (.error ())).translatorCalledWith = some cids
      ∧ (∀ cid ∈ cids,
          ((runLoad slot cids ru true (.error ())).slot.cells cid).state = .errorState)
      ∧ (runLoad slot cids ru true (.error ())).releasedAmount = ru)
    ∧ (∀ i, ((runLoad slot cids ru false tro).slot.cells i).state = .loaded
          → (slot.cells i).state = .loaded)
    ∧ (∀ i, ((runLoad slot cids ru true (.error ())).slot.cells i).state = .loaded
          → (slot.cells i).state = .loaded) := by
  have h1 : ∀ t, runLoad slot cids ru false t =
      { slot := setErrorAll slot cids
        translatorCalledWith := none
        releasedAmount := ResourceUsage.zero } := by
    intro t
    simp [runLoad, hdl]
  have h2 : runLoad slot cids ru true (.error ()) =
      { slot := setErrorAll slot cids
        translatorCalledWith := some cids
        releasedAmount := ru } := by
    simp [runLoad, hdl]
  have herrstate : ∀ cid ∈ cids, ((setErrorAll slot cids).cells cid).state = .errorState := by
    intro cid hc
    rw [setErrorAll_cells cids slot hnd cid, if_pos hc]
    rfl
  have hnoload : ∀ i, ((setErrorAll slot cids).cells i).state = .loaded
      → (slot.cells i).state = .loaded := by
    intro i hload
    rw [setErrorAll_cells cids slot hnd i] at hload
    by_cases hi : i ∈ cids
    · rw [if_pos hi] at hload
      exact absurd hload (by simp [setErr])
    · rwa [if_neg hi] at hload
  refine ⟨⟨?_, ?_, ?_, ?_⟩, ⟨?_, ?_, ?_⟩, ?_, ?_⟩
  · rw [h1 tro]
  · rw [h1 tro, h1 (.error ())]
  · intro cid hc
    rw [h1 tro]
    exact herrstate cid hc
  · rw [h1 tro]
  · rw [h2]
  · intro cid hc
    rw [h2]
    exact herrstate cid hc
  · rw [h2]
  · intro i
    rw [h1 tro]
    exact hnoload i
  · intro i
    rw [h2]
    exact hnoload i

/-- A concrete slot used by the cache witnesses: one not-yet-loaded cell of
estimated size 10 memory bytes, budget attached. -/
def slotC2 : CacheSlot :=
  ⟨1, fun _ => ⟨.notLoaded, 0, ⟨10, 0⟩⟩, .identical, true, 1⟩

theorem c2_run_load_failure_witness :
    ([0] : List Nat).Nodup ∧ slotC2.hasDlist = true
    ∧ (runLoad slotC2 [0] ⟨10, 0⟩ false (Except.ok [0])).translatorCalledWith = none
    ∧ (runLoad slotC2 [0] ⟨10, 0⟩ true (Except.error ())).releasedAmount = ⟨10, 0⟩ :=
  ⟨by decide, rfl,
   (c2_run_load_failure slotC2 [0] ⟨10, 0⟩ (Except.ok [0]) (by decide) rfl).1.1,
   (c2_run_load_failure slotC2 [0] ⟨10, 0⟩ (Except.ok [0]) (by decide) rfl).2.1.2.2⟩

/-- C3: for every `pin_cells` call the uids are mapped to cids and
deduplicated (ALWAYS_ZERO maps a non-empty uid list to the single cid 0),
every involved cell is pinned before any load starts, the amount reserved
equals exactly the sum of estimated sizes of the cells whose pin observed
the NOT_LOADED→LOADING edge, and the Translator's `get_cells` is invoked at
most once per call, over exactly that need-load subset. -/
theorem c3_pin_cells_accounting (slot : CacheSlot) (uids : List Nat)
    (reserveOk : Bool) (tro : Except Unit (List Nat)) :
    (involvedCids slot uids).Nodup
    ∧ (slot.mode = .alwaysZero → uids ≠ [] → involvedCids slot uids = [0])
    ∧ (∀ cid ∈ involvedCids slot uids,
        ((pinPhase slot (involvedCids slot uids)).slot.cells cid).pinCount
          = (slot.cells cid).pinCount + 1)
    ∧ (pinPhase slot (involvedCids slot uids)).needLoad
        = (involvedCids slot uids).filter (fun cid => (pinCell (slot.cells cid)).1)
    ∧ (pinPhase slot (involvedCids slot uids)).resourceNeeded
        = sizeSumFrom slot ResourceUsage.zero
            ((pinPhase slot (involvedCids slot uids)).needLoad)
    ∧ (∀ out, pinCells slot uids reserveOk tro = .ok out →
        out.needLoad
            = (involvedCids slot uids).filter (fun cid => (pinCell (slot.cells cid)).1)
        ∧ (out.translatorCalledWith = none
            ∨ out.translatorCalledWith = some out.needLoad)
        ∧ (out.needLoad = [] → out.translatorCalledWith = none)) := by
  have hnd := involvedCids_nodup slot uids
  have hpp := pinPhase_eq slot (involvedCids slot uids) hnd
  refine ⟨hnd, ?_, ?_, ?_, ?_, ?_⟩
  · intro hmode hne
    unfold involvedCids
    rw [hmode]
    rw [if_pos (by simpa using List.length_pos.mpr hne)]
  · intro cid hc
    rw [hpp]
    simp only
    rw [if_pos hc, pinCell_pinCount]
  · rw [hpp]
  · rw [hpp]
  · intro out hout
    simp only [pinCells, pinInternal] at hout
    by_cases hv : (involvedCids slot uids).any (fun cid => slot.numCells ≤ cid)
    · rw [if_pos hv] at hout
      exact absurd hout (by simp)
    · rw [if_neg hv] at hout
      by_cases hempty : (pinPhase slot (involvedCids slot uids)).needLoad.isEmpty
      · rw [if_pos hempty] at hout
        have hout' := Except.ok.inj hout
        subst hout'
        refine ⟨by rw [hpp], Or.inl rfl, fun _ => rfl⟩
      · rw [if_neg hempty] at hout
        have hout' := Except.ok.inj hout
        subst hout'
        refine ⟨by rw [hpp], ?_, ?_⟩
        · exact runLoad_translatorCalledWith _ _ _ reserveOk tro
        · intro hnl
          have hnl' : (pinPhase slot (involvedCids slot uids)).needLoad = [] := hnl
          rw [hnl'] at hempty
          simp at hempty

theorem c3_pin_cells_accounting_witness :
    (involvedCids slotC2 [0, 0]).Nodup
    ∧ (slotC2.mode = .alwaysZero → ([0, 0] : List Nat) ≠ [] → involvedCids slotC2 [0, 0] = [0])
    ∧ (∀ cid ∈ involvedCids slotC2 [0, 0],
        ((pinPhase slotC2 (involvedCids slotC2 [0, 0])).slot.cells cid).pinCount
          = (slotC2.cells cid).pinCount + 1)
    ∧ (pinPhase slotC2 (involvedCids slotC2 [0, 0])).needLoad
        = (involvedCids slotC2 [0, 0]).filter (fun cid => (pinCell (slotC2.cells cid)).1)
    ∧ (pinPhase slotC2 (involvedCids slotC2 [0, 0])).resourceNeeded
        = sizeSumFrom slotC2 ResourceUsage.zero
            ((pinPhase slotC2 (involvedCids slotC2 [0, 0])).needLoad)
    ∧ (∀ out, pinCells slotC2 [0, 0] true (Except.ok [0]) = .ok out →
        out.needLoad
            = (involvedCids slotC2 [0, 0]).filter (fun cid => (pinCell (slotC2.cells cid)).1)
        ∧ (out.translatorCalledWith = none
            ∨ out.translatorCalledWith = some out.needLoad)
        ∧ (out.needLoad = [] → out.translatorCalledWith = none)) :=
  c3_pin_cells_accounting slotC2 [0, 0] true (Except.ok [0])

/-- C10: for every pin request, all requested cids are validated against
the slot's cell count before any cell is pinned: if any cid is at least
`num_cells` the call throws `OutOfRange` and no pin outcome is produced
(the returned value carries no modified state). -/
theorem c10_pin_cid_validation (slot : CacheSlot) (cids : List Nat)
    (reserveOk : Bool) (tro : Except Unit (List Nat))
    (h : ∃ cid ∈ cids, slot.numCells ≤ cid) :
    pinInternal slot cids reserveOk tro = .error .outOfRange
    ∧ ∀ out, pinInternal slot cids reserveOk tro ≠ .ok out := by
  have hany : cids.any (fun cid => slot.numCells ≤ cid) = true := by
    rcases h with ⟨cid, hmem, hge⟩
    exact List.any_eq_true.mpr ⟨cid, hmem, by simpa using hge⟩
  constructor
  · simp [pinInternal, hany]
  · intro out
    simp [pinInternal, hany]

theorem c10_pin_cid_validation_witness :
    (∃ cid ∈ ([5] : List Nat), slotC2.numCells ≤ cid)
    ∧ pinInternal slotC2 [5] true (Except.ok []) = .error .outOfRange
    ∧ ∀ out, pinInternal slotC2 [5] true (Except.ok []) ≠ .ok out :=
  ⟨⟨5, by simp, by decide⟩,
   (c10_pin_cid_validation slotC2 [5] true (Except.ok []) ⟨5, by simp, by decide⟩).1,
   (c10_pin_cid_validation slotC2 [5] true (Except.ok []) ⟨5, by simp, by decide⟩).2⟩

/-- A concrete slot whose warmup policy value (2) is neither Disable (0)
nor Sync (1). -/
def slotC6 : CacheSlot :=
  ⟨1, fun _ => ⟨.notLoaded, 0, ⟨4, 0⟩⟩, .identical, false, 2⟩

/-- C6 counterexample: for a warmup policy value that is neither Sync nor
Disable, `Warmup` does pin (the cell ends up loaded with pin count 1),
contradicting the claim that every value other than Sync performs no
pinning. -/
theorem c6_counterexample :
    slotC6.policy ≠ cacheWarmupPolicyDisable
    ∧ slotC6.policy ≠ cacheWarmupPolicySync
    ∧ ((warmup slotC6 true (Except.ok [0])).toOption.join.map
        (fun out => ((out.slot.cells 0).pinCount, (out.slot.cells 0).state)))
      = some (1, CellState.loaded) :=
  ⟨by decide, by decide, rfl⟩

/-- C6 (amended): `Warmup` performs no pinning exactly when the policy is
Disable; for every other policy value — Sync and unrecognized values alike —
it pins all cells in `[0, num_cells)` (under the IDENTICAL mapping the
involved cid set is exactly `[0, num_cells)` and every such cell's pin
count is incremented) and drops the accessor. -/
theorem c6_warmup_policy (slot : CacheSlot) (reserveOk : Bool)
    (tro : Except Unit (List Nat)) :
    (slot.policy = cacheWarmupPolicyDisable → warmup slot reserveOk tro = .ok none)
    ∧ (slot.policy ≠ cacheWarmupPolicyDisable →
        warmup slot reserveOk tro
          = (pinCells slot (List.range slot.numCells) reserveOk tro).map some
        ∧ (slot.mode = .identical →
            involvedCids slot (List.range slot.numCells) = List.range slot.numCells
            ∧ ∀ cid < slot.numCells,
                ((pinPhase slot (involvedCids slot (List.range slot.numCells))).slot.cells
                    cid).pinCount
                  = (slot.cells cid).pinCount + 1)) := by
  constructor
  · intro h
    simp [warmup, h]
  · intro h
    refine ⟨by simp [warmup, h], ?_⟩
    intro hmode
    have hinv : involvedCids slot (List.range slot.numCells) = List.range slot.numCells := by
      unfold involvedCids
      rw [hmode]
      simpa using foldl_insertDedup_of_nodup (List.range slot.numCells) []
        (by simpa using List.nodup_range slot.numCells)
    refine ⟨hinv, ?_⟩
    intro cid hcid
    rw [hinv, pinPhase_eq slot _ (by simpa [hinv] using involvedCids_nodup slot (List.range slot.numCells))]
    simp only
    rw [if_pos (List.mem_range.mpr hcid), pinCell_pinCount]

theorem c6_warmup_policy_witness :
    (slotC2.policy = cacheWarmupPolicyDisable
      → warmup slotC2 true (Except.ok [0]) = .ok none)
    ∧ (slotC2.policy ≠ cacheWarmupPolicyDisable →
        warmup slotC2 true (Except.ok [0])
          = (pinCells slotC2 (List.range slotC2.numCells) true (Except.ok [0])).map some
        ∧ (slotC2.mode = .identical →
            involvedCids slotC2 (List.range slotC2.numCells) = List.range slotC2.numCells
            ∧ ∀ cid < slotC2.numCells,
                ((pinPhase slotC2
                    (involvedCids slotC2 (List.range slotC2.numCells))).slot.cells
                    cid).pinCount
                  = (slotC2.cells cid).pinCount + 1)) :=
  c6_warmup_policy slotC2 true (Except.ok [0])

/-- C1: for every unary predicate over an integral column whose literal
lies outside the representable range, evaluation short-circuits without
scanning, identically on the data-scan path and the index-scan path (the
result does not depend on the scan outcome): `>`, `≥` with a too-small
literal give the all-true bitmap masked by valid; `<`, `≤` with a too-large
literal likewise; `=` gives all-false; `≠` gives all-true masked by valid. -/
theorem c1_overflow_precheck (r : IntTypeRange) (op : OpType) (val : Int)
    (valid : List Bool) (idxScan dataScan : ScanResult) :
    ((op = .greaterThan ∨ op = .greaterEqual) → ltLb r val = true →
        execRangeVisitorImplForIndex r op val valid idxScan
          = .ok ⟨andBits (List.replicate valid.length true) valid, valid⟩
        ∧ execRangeVisitorImplForData r op val valid dataScan
          = .ok ⟨andBits (List.replicate valid.length true) valid, valid⟩)
    ∧ ((op = .lessThan ∨ op = .lessEqual) → gtUb r val = true →
        execRangeVisitorImplForIndex r op val valid idxScan
          = .ok ⟨andBits (List.replicate valid.length true) valid, valid⟩
        ∧ execRangeVisitorImplForData r op val valid dataScan
          = .ok ⟨andBits (List.replicate valid.length true) valid, valid⟩)
    ∧ (op = .equal → outOfRange r val = true →
        execRangeVisitorImplForIndex r op val valid idxScan
          = .ok ⟨List.replicate valid.length false, valid⟩
        ∧ execRangeVisitorImplForData r op val valid dataScan
          = .ok ⟨List.replicate valid.length false, valid⟩)
    ∧ (op = .notEqual → outOfRange r val = true →
        execRangeVisitorImplForIndex r op val valid idxScan
          = .ok ⟨andBits (List.replicate valid.length true) valid, valid⟩
        ∧ execRangeVisitorImplForData r op val valid dataScan
          = .ok ⟨andBits (List.replicate valid.length true) valid, valid⟩) := by
  refine ⟨?_, ?_, ?_, ?_⟩
  · intro hop hlt
    have hoor : outOfRange r val = true := by simp [outOfRange, hlt]
    have hpre : preCheckOverflow r op val valid
        = .ok (some ⟨andBits (List.replicate valid.length true) valid, valid⟩) := by
      rcases hop with h | h <;> subst h <;>
        simp [preCheckOverflow, hoor, hlt]
    constructor <;>
      simp [execRangeVisitorImplForIndex, execRangeVisitorImplForData, hpre]
  · intro hop hgt
    have hoor : outOfRange r val = true := by simp [outOfRange, gtUb] at hgt ⊢; omega
    have hpre : preCheckOverflow r op val valid
        = .ok (some ⟨andBits (List.replicate valid.length true) valid, valid⟩) := by
      rcases hop with h | h <;> subst h <;>
        simp [preCheckOverflow, hoor, hgt]
    constructor <;>
      simp [execRangeVisitorImplForIndex, execRangeVisitorImplForData, hpre]
  · intro hop hoor
    subst hop
    have hpre : preCheckOverflow r .equal val valid
        = .ok (some ⟨List.replicate valid.length false, valid⟩) := by
      simp [preCheckOverflow, hoor]
    constructor <;>
      simp [execRangeVisitorImplForIndex, execRangeVisitorImplForData, hpre]
  · intro hop hoor
    subst hop
    have hpre : preCheckOverflow r .notEqual val valid
        = .ok (some ⟨andBits (List.replicate valid.length true) valid, valid⟩) := by
      simp [preCheckOverflow, hoor]
    constructor <;>
      simp [execRangeVisitorImplForIndex, execRangeVisitorImplForData, hpre]

theorem c1_overflow_precheck_witness :
    (OpType.greaterEqual = OpType.greaterThan ∨ OpType.greaterEqual = OpType.greaterEqual)
    ∧ ltLb int8Range (-1000) = true
    ∧ (execRangeVisitorImplForIndex int8Range .greaterEqual (-1000) [true, false, true]
          ⟨[false, false, false], [true, true, true]⟩
        = .ok ⟨andBits (List.replicate 3 true) [true, false, true], [true, false, true]⟩
      ∧ execRangeVisitorImplForData int8Range .greaterEqual (-1000) [true, false, true]
          ⟨[true, true, true], [true, true, true]⟩
        = .ok ⟨andBits (List.replicate 3 true) [true, false, true], [true, false, true]⟩) :=
  ⟨Or.inr rfl, by decide,
   (c1_overflow_precheck int8Range .greaterEqual (-1000) [true, false, true]
      ⟨[false, false, false], [true, true, true]⟩
      ⟨[true, true, true], [true, true, true]⟩).1 (Or.inr rfl) (by decide)⟩

/-!
## Strategy dispatch of the unary executor

Embeds `PhyUnaryRangeFilterExpr::ExecRangeVisitorImpl` (UnaryExpr.cpp,
lines 1488-1513) together with `CanExecNgramMatch` (lines 1976-1983).  The
per-strategy evaluation results are inputs of the dispatcher, so that the
dispatcher's choice — not the kernels — is under scrutiny.
-/

/-- Inputs of one `ExecRangeVisitorImpl` call: the operator, whether the
`EvalCtx` carries a per-row offset input, whether an n-gram index exists
for the field (`CanUseNgramIndex`), whether a scalar index is usable
(`is_index_mode_ && SegmentExpr::CanUseIndex`), the n-gram index's answer
(`ExecuteQuery`; `none` means the query is declined), and the batches the
three remaining strategies would produce. -/
structure DispatchEnv where
  opType : OpType
  hasOffsetInput : Bool
  hasNgramIndex : Bool
  canUseIndexFlag : Bool
  ngramQueryResult : Option ScanResult
  textMatchResult : ScanResult
  indexScanResult : ScanResult
  dataScanResult : ScanResult
  deriving DecidableEq, Repr

/-- Embedding of `PhyUnaryRangeFilterExpr::CanExecNgramMatch` (UnaryExpr.cpp,
lines 1976-1983). -/
def canExecNgramMatch (op : OpType) (hasOffset ngramIdx : Bool) : Bool :=
  (op == .innerMatch || op == .likeMatch || op == .prefixMatch
      || op == .postfixMatch)
    && !hasOffset && ngramIdx

/-- Embedding of `PhyUnaryRangeFilterExpr::ExecRangeVisitorImpl`
(UnaryExpr.cpp, lines 1488-1513): text/phrase match first (with offset
input it throws `OpTypeInvalid`), then the n-gram fast path when eligible
(falling through when the index declines), then index scan when usable and
no offset input is present, otherwise data scan. -/
def execRangeVisitorImpl (e : DispatchEnv) : Except ErrCode ScanResult :=
  if e.opType = .textMatch ∨ e.opType = .phraseMatch then
    if e.hasOffsetInput then .error .opTypeInvalid
    else .ok e.textMatchResult
  else
    match (if canExecNgramMatch e.opType e.hasOffsetInput e.hasNgramIndex
           then e.ngramQueryResult else none) with
    | some res => .ok res
    | none =>
        if e.canUseIndexFlag && !e.hasOffsetInput then .ok e.indexScanResult
        else .ok e.dataScanResult

/-- A concrete dispatch environment with a per-row offset input and a
TextMatch operator. -/
def envC4 : DispatchEnv :=
  ⟨.textMatch, true, false, false, none, ⟨[], []⟩, ⟨[], []⟩, ⟨[true], [true]⟩⟩

/-- C4 counterexample: an `Eval` call carrying a per-row offset input with a
TextMatch operator throws `OpTypeInvalid` instead of producing a result
batch via brute-force scan, refuting the claim for that input. -/
theorem c4_counterexample :
    envC4.hasOffsetInput = true
    ∧ execRangeVisitorImpl envC4 = .error .opTypeInvalid
    ∧ execRangeVisitorImpl envC4 ≠ .ok envC4.dataScanResult :=
  ⟨rfl, rfl, fun h => Except.noConfusion h⟩

/-- C4 (amended): for every `Eval` call carrying a per-row offset input
whose operator is not TextMatch or PhraseMatch, the n-gram and index-scan
strategies are disabled and the call produces the data-scan batch; for
TextMatch and PhraseMatch with an offset input the executor throws
`OpTypeInvalid` instead. -/
theorem c4_offset_input_forces_data_scan (e : DispatchEnv)
    (hoff : e.hasOffsetInput = true)
    (hop : e.opType ≠ .textMatch ∧ e.opType ≠ .phraseMatch) :
    execRangeVisitorImpl e = .ok e.dataScanResult := by
  obtain ⟨h1, h2⟩ := hop
  have hng : canExecNgramMatch e.opType true e.hasNgramIndex = false := by
    simp [canExecNgramMatch]
  simp [execRangeVisitorImpl, h1, h2, hoff, hng]

theorem c4_offset_input_forces_data_scan_witness :
    (⟨.equal, true, true, true, some ⟨[true], [true]⟩, ⟨[], []⟩, ⟨[false], [true]⟩,
        ⟨[true], [false]⟩⟩ : DispatchEnv).hasOffsetInput = true
    ∧ execRangeVisitorImpl
        ⟨.equal, true, true, true, some ⟨[true], [true]⟩, ⟨[], []⟩, ⟨[false], [true]⟩,
          ⟨[true], [false]⟩⟩
      = .ok ⟨[true], [false]⟩ :=
  ⟨rfl,
   c4_offset_input_forces_data_scan
     ⟨.equal, true, true, true, some ⟨[true], [true]⟩, ⟨[], []⟩, ⟨[false], [true]⟩,
       ⟨[true], [false]⟩⟩
     rfl ⟨by decide, by decide⟩⟩

/-!
## The n-gram fast path and its streaming state

Embeds `PhyUnaryRangeFilterExpr::ExecNgramMatch` (UnaryExpr.cpp, lines
1997-2043).  The cursor arithmetic (`GetNextBatchSize`, `MoveCursor`,
`current_data_global_pos_`) lives in `exec/expression/Expr.h`, which is not
in this snapshot; it is modelled from the spec: a batch covers
`min batch_size (active_count - pos)` rows starting at the global cursor,
which advances by that amount.
-/

/-- Streaming state of a cached index-backed bitmap: the global cursor, the
cached result bitmap (`cached_ngram_match_res_` / `cached_match_res_`,
absent until first materialization) and the cached valid bitmap
(`cached_index_chunk_valid_res_`). -/
structure CachedBitmapState where
  pos : Nat
  cachedBits : Option (List Bool)
  cachedValid : List Bool
  deriving DecidableEq, Repr

/-- Slice `len` bits starting at `pos` (`TargetBitmap::append(src, pos, len)`). -/
def slice (l : List Bool) (pos len : Nat) : List Bool :=
  (l.drop pos).take len

/-- Embedding of `PhyUnaryRangeFilterExpr::ExecNgramMatch` (UnaryExpr.cpp,
lines 1997-2043).  `executeQuery` is the n-gram index's answer
(`NgramInvertedIndex::ExecuteQuery`, `none` when the pattern cannot be
served); `isNotNull` is the index's `IsNotNull` bitmap.  Returns the batch
(or `none` to fall through) and the new streaming state; a declined query
caches nothing and does not move the cursor. -/
def execNgramMatch (executeQuery : Option (List Bool)) (isNotNull : List Bool)
    (activeCount batchSize : Nat) (st : CachedBitmapState) :
    Option ScanResult × CachedBitmapState :=
  let realBatch := min batchSize (activeCount - st.pos)
  if realBatch = 0 then (none, st)
  else
    match st.cachedBits with
    | none =>
        match executeQuery with
        | none => (none, st)
        | some bits =>
            (some ⟨slice bits st.pos realBatch, slice isNotNull st.pos realBatch⟩,
             ⟨st.pos + realBatch, some bits, isNotNull⟩)
    | some bits =>
        (some ⟨slice bits st.pos realBatch, slice st.cachedValid st.pos realBatch⟩,
         ⟨st.pos + realBatch, some bits, st.cachedValid⟩)

/-- C7: for every batch where the n-gram index declines the query
(`ExecuteQuery` returns nullopt), the declining call leaves the streaming
state untouched and the dispatcher's final result equals what the normal
path (index scan when usable, data scan otherwise) would have produced for
the same batch. -/
theorem c7_ngram_decline_fallback (e : DispatchEnv) (isNotNull : List Bool)
    (activeCount batchSize : Nat) (st : CachedBitmapState)
    (hng : canExecNgramMatch e.opType e.hasOffsetInput e.hasNgramIndex = true)
    (hdecline : e.ngramQueryResult = none)
    (hfresh : st.cachedBits = none) :
    execRangeVisitorImpl e
      = (if e.canUseIndexFlag && !e.hasOffsetInput
          then .ok e.indexScanResult else .ok e.dataScanResult)
    ∧ execNgramMatch none isNotNull activeCount batchSize st = (none, st) := by
  constructor
  · have hop : ¬(e.opType = .textMatch ∨ e.opType = .phraseMatch) := by
      rcases e with ⟨op, off, ngi, cui, ngr, tm, is, ds⟩
      cases op <;> simp_all [canExecNgramMatch]
    simp [execRangeVisitorImpl, if_neg hop, hng, hdecline]
  · unfold execNgramMatch
    by_cases hz : min batchSize (activeCount - st.pos) = 0
    · simp [hz]
    · simp [hz, hfresh]

theorem c7_ngram_decline_fallback_witness :
    canExecNgramMatch
        (⟨.innerMatch, false, true, false, none, ⟨[], []⟩, ⟨[false], [true]⟩,
          ⟨[true], [true]⟩⟩ : DispatchEnv).opType
        (⟨.innerMatch, false, true, false, none, ⟨[], []⟩, ⟨[false], [true]⟩,
          ⟨[true], [true]⟩⟩ : DispatchEnv).hasOffsetInput
        (⟨.innerMatch, false, true, false, none, ⟨[], []⟩, ⟨[false], [true]⟩,
          ⟨[true], [true]⟩⟩ : DispatchEnv).hasNgramIndex = true
    ∧ (execRangeVisitorImpl
          ⟨.innerMatch, false, true, false, none, ⟨[], []⟩, ⟨[false], [true]⟩,
            ⟨[true], [true]⟩⟩
        = (if (⟨.innerMatch, false, true, false, none, ⟨[], []⟩, ⟨[false], [true]⟩,
              ⟨[true], [true]⟩⟩ : DispatchEnv).canUseIndexFlag
            && !(⟨.innerMatch, false, true, false, none, ⟨[], []⟩, ⟨[false], [true]⟩,
              ⟨[true], [true]⟩⟩ : DispatchEnv).hasOffsetInput
            then .ok (⟨.innerMatch, false, true, false, none, ⟨[], []⟩, ⟨[false], [true]⟩,
              ⟨[true], [true]⟩⟩ : DispatchEnv).indexScanResult
            else .ok (⟨.innerMatch, false, true, false, none, ⟨[], []⟩, ⟨[false], [true]⟩,
              ⟨[true], [true]⟩⟩ : DispatchEnv).dataScanResult)
      ∧ execNgramMatch none [true, true] 2 1 ⟨0, none, []⟩ = (none, ⟨0, none, []⟩)) :=
  ⟨by decide,
   c7_ngram_decline_fallback
     ⟨.innerMatch, false, true, false, none, ⟨[], []⟩, ⟨[false], [true]⟩, ⟨[true], [true]⟩⟩
     [true, true] 2 1 ⟨0, none, []⟩ (by decide) rfl rfl⟩

/-!
## JSON data-scan row kernels

Embeds the row-level behaviour of
`PhyUnaryRangeFilterExpr::ExecRangeVisitorImplJson` (UnaryExpr.cpp, lines
654-1000): the `UnaryRangeJSONCompare` / `UnaryRangeJSONCompareNotEqual`
macros (lines 689-717) and the per-operator branches of its
`execute_sub_batch`.  The typed JSON pointer resolution
`milvus::Json::at<T>(pointer)` (simdjson; `common/Json.h` is not in this
snapshot) is modelled per row as the optional result of each typed
extraction, `none` being a lookup error (missing key or wrong value type);
the C++ `double` is modelled as `Rat`.
-/

/-- One JSON row as the scan kernels observe it: the validity bit and the
outcome of each typed extraction at the configured pointer.  `arrayLookup`
is the outcome of `doc.at_pointer(pointer).get_array()` followed by
`CompareTwoJsonArray` against the literal: `none` when `get_array` errors,
otherwise the deep-equality verdict. -/
structure JsonRow where
  valid : Bool
  asBool : Option Bool
  asInt : Option Int
  asDouble : Option Rat
  asStr : Option String
  arrayLookup : Option Bool
  deriving DecidableEq, Repr

/-- The `UnaryRangeJSONCompare(cmp)` macro (UnaryExpr.cpp, lines 689-702)
at a non-int64 extraction type: a lookup error makes the row false. -/
def unaryRangeJSONCompare {α : Type} (extract : Option α) (cmp : α → Bool) : Bool :=
  match extract with
  | none => false
  | some x => cmp x

/-- The `UnaryRangeJSONCompare(cmp)` macro at extraction type int64: on a
lookup error the extraction is retried as double, and the row is false only
when the double extraction fails too. -/
def unaryRangeJSONCompareInt (row : JsonRow) (cmpI : Int → Bool)
    (cmpD : Rat → Bool) : Bool :=
  match row.asInt with
  | some x => cmpI x
  | none =>
      match row.asDouble with
      | some d => cmpD d
      | none => false

/-- The `UnaryRangeJSONCompareNotEqual(cmp)` macro (lines 704-717) at a
non-int64 extraction type: a lookup error makes the row true. -/
def unaryRangeJSONCompareNotEqual {α : Type} (extract : Option α)
    (cmp : α → Bool) : Bool :=
  match extract with
  | none => true
  | some x => cmp x

/-- The `UnaryRangeJSONCompareNotEqual(cmp)` macro at extraction type
int64: on a lookup error, retry as double; the row is true when the double
extraction fails too. -/
def unaryRangeJSONCompareNotEqualInt (row : JsonRow) (cmpI : Int → Bool)
    (cmpD : Rat → Bool) : Bool :=
  match row.asInt with
  | some x => cmpI x
  | none =>
      match row.asDouble with
      | some d => cmpD d
      | none => true

/-- Row verdict of the JSON scan for an int64 literal (the
`ExprValueType = int64_t` instantiation of `execute_sub_batch`) on a valid
row.  The string match operators have no int64 instantiation
(`milvus::query::Match` is only defined for strings) and unknown operators
hit `ThrowInfo(OpTypeInvalid, ...)`. -/
def jsonRowCompareInt (op : OpType) (row : JsonRow) (val : Int) :
    Except ErrCode Bool :=
  match op with
  | .greaterThan =>
      .ok (unaryRangeJSONCompareInt row (fun x => x > val) (fun d => d > (val : Rat)))
  | .greaterEqual =>
      .ok (unaryRangeJSONCompareInt row (fun x => x ≥ val) (fun d => d ≥ (val : Rat)))
  | .lessThan =>
      .ok (unaryRangeJSONCompareInt row (fun x => x < val) (fun d => d < (val : Rat)))
  | .lessEqual =>
      .ok (unaryRangeJSONCompareInt row (fun x => x ≤ val) (fun d => d ≤ (val : Rat)))
  | .equal =>
      .ok (unaryRangeJSONCompareInt row (fun x => x = val) (fun d => d = (val : Rat)))
  | .notEqual =>
      .ok (unaryRangeJSONCompareNotEqualInt row (fun x => x ≠ val) (fun d => d ≠ (val : Rat)))
  | _ => .error .opTypeInvalid

/-- Row verdict for a double literal (`ExprValueType = double`). -/
def jsonRowCompareDouble (op : OpType) (row : JsonRow) (val : Rat) :
    Except ErrCode Bool :=
  match op with
  | .greaterThan => .ok (unaryRangeJSONCompare row.asDouble (fun x => x > val))
  | .greaterEqual => .ok (unaryRangeJSONCompare row.asDouble (fun x => x ≥ val))
  | .lessThan => .ok (unaryRangeJSONCompare row.asDouble (fun x => x < val))
  | .lessEqual => .ok (unaryRangeJSONCompare row.asDouble (fun x => x ≤ val))
  | .equal => .ok (unaryRangeJSONCompare row.asDouble (fun x => x = val))
  | .notEqual => .ok (unaryRangeJSONCompareNotEqual row.asDouble (fun x => x ≠ val))
  | _ => .error .opTypeInvalid

/-- Row verdict for a bool literal (`ExprValueType = bool`). -/
def jsonRowCompareBool (op : OpType) (row : JsonRow) (val : Bool) :
    Except ErrCode Bool :=
  match op with
  | .greaterThan => .ok (unaryRangeJSONCompare row.asBool (fun x => x > val))
  | .greaterEqual => .ok (unaryRangeJSONCompare row.asBool (fun x => x ≥ val))
  | .lessThan => .ok (unaryRangeJSONCompare row.asBool (fun x => x < val))
  | .lessEqual => .ok (unaryRangeJSONCompare row.asBool (fun x => x ≤ val))
  | .equal => .ok (unaryRangeJSONCompare row.asBool (fun x => x = val))
  | .notEqual => .ok (unaryRangeJSONCompareNotEqual row.asBool (fun x => x ≠ val))
  | _ => .error .opTypeInvalid

/-- Row verdict for a string literal (`ExprValueType = std::string`).
The `milvus::query::Match` string instantiations are anchored comparisons;
the SQL-LIKE `Match` goes through `PatternMatchTranslator` and
`RegexMatcher` (boost::regex, external), modelled as the oracle
`likeMatcher`. -/
def jsonRowCompareStr (op : OpType) (row : JsonRow) (val : String)
    (likeMatcher : String → Bool) : Except ErrCode Bool :=
  match op with
  | .greaterThan => .ok (unaryRangeJSONCompare row.asStr (fun x => x > val))
  | .greaterEqual => .ok (unaryRangeJSONCompare row.asStr (fun x => x ≥ val))
  | .lessThan => .ok (unaryRangeJSONCompare row.asStr (fun x => x < val))
  | .lessEqual => .ok (unaryRangeJSONCompare row.asStr (fun x => x ≤ val))
  | .equal => .ok (unaryRangeJSONCompare row.asStr (fun x => x = val))
  | .notEqual => .ok (unaryRangeJSONCompareNotEqual row.asStr (fun x => x ≠ val))
  | .prefixMatch => .ok (unaryRangeJSONCompare row.asStr (fun x => x.startsWith val))
  | .postfixMatch => .ok (unaryRangeJSONCompare row.asStr (fun x => x.endsWith val))
  | .innerMatch => .ok (unaryRangeJSONCompare row.asStr (fun x => x.containsSubstr val.toSubstring))
  | .likeMatch => .ok (unaryRangeJSONCompare row.asStr likeMatcher)
  | _ => .error .opTypeInvalid

/-- Row verdict for a JSON-array literal (`ExprValueType =
proto::plan::Array`, UnaryExpr.cpp lines 834-845 and 862-869): Equal and
NotEqual resolve the pointer with `get_array()`, and a lookup error yields
false for both; every other operator yields false outright for the array
extraction type. -/
def jsonRowCompareArray (op : OpType) (row : JsonRow) : Except ErrCode Bool :=
  match op with
  | .greaterThan | .greaterEqual | .lessThan | .lessEqual => .ok false
  | .equal =>
      .ok (match row.arrayLookup with
           | none => false
           | some same => same)
  | .notEqual =>
      .ok (match row.arrayLookup with
           | none => false
           | some same => !same)
  | .prefixMatch | .postfixMatch | .innerMatch | .likeMatch => .ok false
  | _ => .error .opTypeInvalid

/-- The sub-batch loop of `ExecRangeVisitorImplJson` instantiated at an
int64 literal, sequential filter, no upstream bitmap input: a null row gets
`res[i] = valid_res[i] = false`, a valid row gets the row kernel (the
result bitmap is pre-initialized false and valid pre-initialized to the
validity bits). -/
def execSubBatchJsonInt (op : OpType) (val : Int) (rows : List JsonRow) :
    Except ErrCode ScanResult := do
  let bits ← rows.mapM (fun row =>
    if row.valid then jsonRowCompareInt op row val else pure false)
  pure ⟨bits, rows.map (fun row => row.valid)⟩

/-- A row on which every JSON pointer resolution fails. -/
def rowMissing : JsonRow := ⟨true, none, none, none, none, none⟩

/-- C5 counterexample: on a row whose pointer resolution fails, NotEqual
against a JSON-array literal yields false — not true as the claim states —
while NotEqual against an int64 literal does yield true. -/
theorem c5_counterexample :
    rowMissing.arrayLookup = none
    ∧ jsonRowCompareArray .notEqual rowMissing = .ok false
    ∧ jsonRowCompareInt .notEqual rowMissing 5 = .ok true :=
  ⟨rfl, rfl, rfl⟩

/-- C5 (amended): in the JSON data-scan path, for every row whose pointer
resolution fails the row's result bit is false for every operator except
NotEqual over a non-array literal, for which it is true (null-as-distinct);
NotEqual against a JSON-array literal yields false on lookup failure, like
Equal; and for an int64 literal the comparison is retried with the value
read as double whenever the int64 extraction fails (for every operator the
int64 kernel then agrees with the double kernel at the widened literal). -/
theorem c5_json_lookup_failure (op : OpType) (row : JsonRow) (vi : Int)
    (vd : Rat) (vs : String) (vb : Bool) (likeMatcher : String → Bool) :
    (op = .greaterThan ∨ op = .greaterEqual ∨ op = .lessThan
        ∨ op = .lessEqual ∨ op = .equal →
      (row.asInt = none → row.asDouble = none →
        jsonRowCompareInt op row vi = .ok false)
      ∧ (row.asDouble = none → jsonRowCompareDouble op row vd = .ok false)
      ∧ (row.asStr = none → jsonRowCompareStr op row vs likeMatcher = .ok false)
      ∧ (row.asBool = none → jsonRowCompareBool op row vb = .ok false))
    ∧ (op = .prefixMatch ∨ op = .postfixMatch ∨ op = .innerMatch
        ∨ op = .likeMatch →
      row.asStr = none → jsonRowCompareStr op row vs likeMatcher = .ok false)
    ∧ (row.asInt = none → row.asDouble = none →
        jsonRowCompareInt .notEqual row vi = .ok true)
    ∧ (row.asDouble = none → jsonRowCompareDouble .notEqual row vd = .ok true)
    ∧ (row.asStr = none → jsonRowCompareStr .notEqual row vs likeMatcher = .ok true)
    ∧ (row.asBool = none → jsonRowCompareBool .notEqual row vb = .ok true)
    ∧ (row.arrayLookup = none →
        jsonRowCompareArray .equal row = .ok false
        ∧ jsonRowCompareArray .notEqual row = .ok false)
    ∧ (row.asInt = none →
        jsonRowCompareInt op row vi = jsonRowCompareDouble op row (vi : Rat))
    ∧ (∀ rows res, execSubBatchJsonInt op vi rows = .ok res →
        res.valid = rows.map (fun r => r.valid)) := by
  refine ⟨?_, ?_, ?_, ?_, ?_, ?_, ?_, ?_, ?_⟩
  · intro hop
    refine ⟨?_, ?_, ?_, ?_⟩
    · intro h1 h2
      rcases hop with h | h | h | h | h <;> subst h <;>
        simp [jsonRowCompareInt, unaryRangeJSONCompareInt, h1, h2]
    · intro h1
      rcases hop with h | h | h | h | h <;> subst h <;>
        simp [jsonRowCompareDouble, unaryRangeJSONCompare, h1]
    · intro h1
      rcases hop with h | h | h | h | h <;> subst h <;>
        simp [jsonRowCompareStr, unaryRangeJSONCompare, h1]
    · intro h1
      rcases hop with h | h | h | h | h <;> subst h <;>
        simp [jsonRowCompareBool, unaryRangeJSONCompare, h1]
  · intro hop h1
    rcases hop with h | h | h | h <;> subst h <;>
      simp [jsonRowCompareStr, unaryRangeJSONCompare, h1]
  · intro h1 h2
    simp [jsonRowCompareInt, unaryRangeJSONCompareNotEqualInt, h1, h2]
  · intro h1
    simp [jsonRowCompareDouble, unaryRangeJSONCompareNotEqual, h1]
  · intro h1
    simp [jsonRowCompareStr, unaryRangeJSONCompareNotEqual, h1]
  · intro h1
    simp [jsonRowCompareBool, unaryRangeJSONCompareNotEqual, h1]
  · intro h1
    constructor <;> simp [jsonRowCompareArray, h1]
  · intro h1
    cases op <;> cases hd : row.asDouble <;>
      simp [jsonRowCompareInt, jsonRowCompareDouble, unaryRangeJSONCompareInt,
        unaryRangeJSONCompareNotEqualInt, unaryRangeJSONCompare,
        unaryRangeJSONCompareNotEqual, h1, hd]
  · intro rows res h
    unfold execSubBatchJsonInt at h
    cases hm : rows.mapM (fun row =>
        if row.valid then jsonRowCompareInt op row vi else pure false) with
    | error e =>
      rw [hm] at h
      exact Except.noConfusion h
    | ok bits =>
      rw [hm] at h
      have h' : (⟨bits, rows.map (fun r => r.valid)⟩ : ScanResult) = res :=
        Except.ok.inj h
      rw [← h']

theorem c5_json_lookup_failure_witness :
    rowMissing.asInt = none ∧ rowMissing.asDouble = none
    ∧ jsonRowCompareInt .greaterThan rowMissing 5 = .ok false
    ∧ jsonRowCompareInt .notEqual rowMissing 5 = .ok true :=
  ⟨rfl, rfl,
   ((c5_json_lookup_failure .greaterThan rowMissing 5 0 "a" true
      (fun _ => false)).1 (Or.inl rfl)).1 rfl rfl,
   (c5_json_lookup_failure .greaterThan rowMissing 5 0 "a" true
      (fun _ => false)).2.2.1 rfl rfl⟩

/-!
## Text / phrase match

Embeds `PhyUnaryRangeFilterExpr::ExecTextMatch` (UnaryExpr.cpp, lines
1906-1974) against the text index interface of `index/TextMatchIndex.h`
(`MatchQuery`, `PhraseMatchQuery`, `IsNotNull`; the Tantivy implementation
is external and enters as an oracle).  The cursor helpers are modelled from
the spec as in the n-gram section.
-/

def uint32Max : Int := 4294967295

/-- The text index as the executor consumes it (TextMatchIndex.h, lines
84-88, plus `IsNotNull` from the inverted-index base). -/
structure TextIndexModel where
  matchQueryFn : String → List Bool
  phraseQueryFn : String → Int → List Bool
  isNotNullBits : List Bool

/-- Observable outcome of one `ExecTextMatch` call: the produced batch
(`none` when the cursor is exhausted), the streaming state afterwards, and
the query the text index received (`none` when the index was not queried;
for a phrase query the slop is carried). -/
structure TextMatchOutcome where
  result : Except ErrCode (Option ScanResult)
  state : CachedBitmapState
  queried : Option (String × Option Int)

/-- Extraction of the phrase slop from `expr_->extra_values_`
(UnaryExpr.cpp, lines 1915-1920): 0 when no extra value is supplied. -/
def computeSlop (extraValues : List Int) : Int :=
  match extraValues with
  | [] => 0
  | v :: _ => v

/-- The growing-segment padding of `ExecTextMatch` (UnaryExpr.cpp, lines
1955-1961): when the cached result covers fewer rows than `active_count`,
a false tail is appended up to `active_count`. -/
def paddedBits (bits : List Bool) (activeCount : Nat) : List Bool :=
  if bits.length < activeCount
    then bits ++ List.replicate (activeCount - bits.length) false
    else bits

/-- The same padding applied to the valid bitmap: the tail length is
computed from the result bitmap's size (the source appends the same `tail`
to `cached_index_chunk_valid_res_`). -/
def paddedValidBits (bits valid : List Bool) (activeCount : Nat) : List Bool :=
  if bits.length < activeCount
    then valid ++ List.replicate (activeCount - bits.length) false
    else valid

/-- Embedding of `PhyUnaryRangeFilterExpr::ExecTextMatch` (UnaryExpr.cpp,
lines 1906-1974).  For PhraseMatch the slop is validated against
`[0, UINT32_MAX]` before anything else; a slop out of range throws
`InvalidParameter` before the index is queried.  On the first non-empty
batch the whole-column result and `IsNotNull` bitmaps are materialized,
padded for growing segments, and cached; every batch slices the cached
bitmaps at the global cursor and advances it. -/
def execTextMatch (op : OpType) (query : String) (extraValues : List Int)
    (idx : TextIndexModel) (activeCount batchSize : Nat)
    (st : CachedBitmapState) : TextMatchOutcome :=
  let slop := if op = .phraseMatch then computeSlop extraValues else 0
  if op = .phraseMatch ∧ (slop < 0 ∨ uint32Max < slop) then
    ⟨.error .invalidParameter, st, none⟩
  else
    let realBatch := min batchSize (activeCount - st.pos)
    if realBatch = 0 then ⟨.ok none, st, none⟩
    else
      match st.cachedBits with
      | some cm =>
          ⟨.ok (some ⟨slice cm st.pos realBatch, slice st.cachedValid st.pos realBatch⟩),
           ⟨st.pos + realBatch, some cm, st.cachedValid⟩, none⟩
      | none =>
          if op = .textMatch ∨ op = .phraseMatch then
            let res := if op = .textMatch then idx.matchQueryFn query
                       else idx.phraseQueryFn query slop
            let resP := paddedBits res activeCount
            let validP := paddedValidBits res idx.isNotNullBits activeCount
            ⟨.ok (some ⟨slice resP st.pos realBatch, slice validP st.pos realBatch⟩),
             ⟨st.pos + realBatch, some resP, validP⟩,
             some (query, if op = .phraseMatch then some slop else none)⟩
          else ⟨.error .opTypeInvalid, st, none⟩

/-- The bitmap the text index returns for this evaluation (`MatchQuery` for
TextMatch, `PhraseMatchQuery` at the extracted slop for PhraseMatch). -/
def textMatchQueryBits (op : OpType) (query : String) (extraValues : List Int)
    (idx : TextIndexModel) : List Bool :=
  if op = .textMatch then idx.matchQueryFn query
  else idx.phraseQueryFn query (computeSlop extraValues)

theorem getD_append_replicate_false (l : List Bool) (m r : Nat)
    (h1 : l.length ≤ r) (h2 : r < l.length + m) :
    (l ++ List.replicate m false).getD r true = false := by
  rw [List.getD_append_right l _ true r h1]
  have hlt : r - l.length < m := by omega
  have hlen : r - l.length < (List.replicate m false).length := by simpa using hlt
  rw [List.getD_eq_getElem _ _ hlen]
  simp

/-- C9: for every PhraseMatch evaluation, a slop below 0 or above
UINT32_MAX makes the executor throw `InvalidParameter` before the text
index is queried (no query is recorded, the state is untouched); a valid
slop is passed to the index exactly as extracted, and an empty extra-value
list defaults the slop to 0. -/
theorem c9_phrase_slop_validation (query : String) (extraValues : List Int)
    (idx : TextIndexModel) (activeCount batchSize : Nat)
    (st : CachedBitmapState) :
    (computeSlop extraValues < 0 ∨ uint32Max < computeSlop extraValues →
      (execTextMatch .phraseMatch query extraValues idx activeCount batchSize st).result
          = .error .invalidParameter
      ∧ (execTextMatch .phraseMatch query extraValues idx activeCount batchSize st).queried
          = none
      ∧ (execTextMatch .phraseMatch query extraValues idx activeCount batchSize st).state
          = st)
    ∧ (0 ≤ computeSlop extraValues → computeSlop extraValues ≤ uint32Max →
        st.cachedBits = none → 0 < min batchSize (activeCount - st.pos) →
        (execTextMatch .phraseMatch query extraValues idx activeCount batchSize st).queried
          = some (query, some (computeSlop extraValues)))
    ∧ computeSlop [] = 0 := by
  refine ⟨?_, ?_, rfl⟩
  · intro h
    have hmain : execTextMatch .phraseMatch query extraValues idx activeCount batchSize st
        = ⟨.error .invalidParameter, st, none⟩ := by
      simp only [execTextMatch, if_true]
      rw [if_pos (show True ∧ (computeSlop extraValues < 0
          ∨ uint32Max < computeSlop extraValues) from ⟨trivial, h⟩)]
    rw [hmain]
    exact ⟨rfl, rfl, rfl⟩
  · intro h1 h2 hcache hbatch
    have hz : ¬(min batchSize (activeCount - st.pos) = 0) := by omega
    simp only [execTextMatch, if_true]
    rw [if_neg (show ¬(True ∧ (computeSlop extraValues < 0
          ∨ uint32Max < computeSlop extraValues)) from
        fun hcon => by rcases hcon.2 with hb | hb <;> omega)]
    rw [if_neg hz, hcache]
    simp

/-- Concrete text index for witnesses: two indexed rows. -/
def idxW : TextIndexModel :=
  ⟨fun _ => [true, false], fun _ _ => [false, true], [true, true]⟩

theorem c9_phrase_slop_validation_witness :
    (computeSlop [-1] < 0 ∨ uint32Max < computeSlop [-1])
    ∧ (execTextMatch .phraseMatch "q" [-1] idxW 2 1 ⟨0, none, []⟩).result
        = .error .invalidParameter
    ∧ (0 : Int) ≤ computeSlop ([] : List Int)
    ∧ (execTextMatch .phraseMatch "q" [] idxW 2 1 ⟨0, none, []⟩).queried
        = some ("q", some (computeSlop ([] : List Int))) :=
  ⟨Or.inl (by decide),
   ((c9_phrase_slop_validation "q" [-1] idxW 2 1 ⟨0, none, []⟩).1
      (Or.inl (by decide))).1,
   by decide,
   (c9_phrase_slop_validation "q" [] idxW 2 1 ⟨0, none, []⟩).2.1
      (by decide) (by decide) rfl (by decide)⟩

/-- C8: for every text or phrase match whose index bitmap covers fewer rows
than `active_count` (growing segment), the cached result and valid bitmaps
are extended with false bits up to `active_count`, so rows added after
index build are false in both; the produced batch, and every subsequent
batch, slices the cached bitmaps at the current global cursor with the
batch length, advancing the cursor. -/
theorem c8_growing_zero_pad (op : OpType) (query : String)
    (extraValues : List Int) (idx : TextIndexModel)
    (activeCount batchSize : Nat) (st : CachedBitmapState)
    (hop : op = .textMatch ∨ op = .phraseMatch)
    (hslop : ¬(op = .phraseMatch ∧
        (computeSlop extraValues < 0 ∨ uint32Max < computeSlop extraValues)))
    (hcache : st.cachedBits = none)
    (hk : (textMatchQueryBits op query extraValues idx).length < activeCount)
    (hbatch : 0 < min batchSize (activeCount - st.pos)) :
    (execTextMatch op query extraValues idx activeCount batchSize st).state.cachedBits
        = some (textMatchQueryBits op query extraValues idx
            ++ List.replicate
                (activeCount - (textMatchQueryBits op query extraValues idx).length) false)
    ∧ (execTextMatch op query extraValues idx activeCount batchSize st).state.cachedValid
        = idx.isNotNullBits
            ++ List.replicate
                (activeCount - (textMatchQueryBits op query extraValues idx).length) false
    ∧ (∀ r, (textMatchQueryBits op query extraValues idx).length ≤ r → r < activeCount →
        (textMatchQueryBits op query extraValues idx
            ++ List.replicate
                (activeCount - (textMatchQueryBits op query extraValues idx).length)
                false).getD r true = false)
    ∧ (idx.isNotNullBits.length = (textMatchQueryBits op query extraValues idx).length →
        ∀ r, (textMatchQueryBits op query extraValues idx).length ≤ r → r < activeCount →
        (idx.isNotNullBits
            ++ List.replicate
                (activeCount - (textMatchQueryBits op query extraValues idx).length)
                false).getD r true = false)
    ∧ (execTextMatch op query extraValues idx activeCount batchSize st).result
        = .ok (some
            ⟨slice (paddedBits (textMatchQueryBits op query extraValues idx) activeCount)
              st.pos (min batchSize (activeCount - st.pos)),
             slice (paddedValidBits (textMatchQueryBits op query extraValues idx)
                idx.isNotNullBits activeCount)
              st.pos (min batchSize (activeCount - st.pos))⟩)
    ∧ (execTextMatch op query extraValues idx activeCount batchSize st).state.pos
        = st.pos + min batchSize (activeCount - st.pos)
    ∧ (∀ (st' : CachedBitmapState) (cm : List Bool), st'.cachedBits = some cm →
        0 < min batchSize (activeCount - st'.pos) →
        (execTextMatch op query extraValues idx activeCount batchSize st').result
          = .ok (some ⟨slice cm st'.pos (min batchSize (activeCount - st'.pos)),
                       slice st'.cachedValid st'.pos (min batchSize (activeCount - st'.pos))⟩)
        ∧ (execTextMatch op query extraValues idx activeCount batchSize st').state.pos
          = st'.pos + min batchSize (activeCount - st'.pos)) := by
  have hnc : ¬(op = .phraseMatch ∧
      ((if op = .phraseMatch then computeSlop extraValues else (0 : Int)) < 0
        ∨ uint32Max < (if op = .phraseMatch then computeSlop extraValues else (0 : Int)))) := by
    intro hcon
    exact hslop ⟨hcon.1, by simpa [hcon.1] using hcon.2⟩
  have hB : (if op = .textMatch then idx.matchQueryFn query
      else idx.phraseQueryFn query
        (if op = .phraseMatch then computeSlop extraValues else (0 : Int)))
      = textMatchQueryBits op query extraValues idx := by
    rcases hop with h | h <;> subst h <;> simp [textMatchQueryBits]
  have hz : ¬(min batchSize (activeCount - st.pos) = 0) := by omega
  have hmain : execTextMatch op query extraValues idx activeCount batchSize st
      = ⟨.ok (some
            ⟨slice (paddedBits (textMatchQueryBits op query extraValues idx) activeCount)
              st.pos (min batchSize (activeCount - st.pos)),
             slice (paddedValidBits (textMatchQueryBits op query extraValues idx)
                idx.isNotNullBits activeCount)
              st.pos (min batchSize (activeCount - st.pos))⟩),
         ⟨st.pos + min batchSize (activeCount - st.pos),
          some (paddedBits (textMatchQueryBits op query extraValues idx) activeCount),
          paddedValidBits (textMatchQueryBits op query extraValues idx)
            idx.isNotNullBits activeCount⟩,
         some (query,
           if op = .phraseMatch then some (computeSlop extraValues) else none)⟩ := by
    simp only [execTextMatch]
    rw [if_neg hnc, if_neg hz, hcache]
    rw [if_pos hop]
    rcases hop with h | h <;> subst h <;> simp [textMatchQueryBits]
  refine ⟨?_, ?_, ?_, ?_, ?_, ?_, ?_⟩
  · rw [hmain]
    simp only
    rw [paddedBits, if_pos hk]
  · rw [hmain]
    simp only
    rw [paddedValidBits, if_pos hk]
  · intro r hr1 hr2
    exact getD_append_replicate_false _ _ r hr1 (by omega)
  · intro hlen r hr1 hr2
    exact getD_append_replicate_false _ _ r (by omega) (by omega)
  · rw [hmain]
  · rw [hmain]
  · intro st' cm hst' hbatch'
    have hz' : ¬(min batchSize (activeCount - st'.pos) = 0) := by omega
    constructor
    · simp only [execTextMatch]
      rw [if_neg hnc, if_neg hz', hst']
    · simp only [execTextMatch]
      rw [if_neg hnc, if_neg hz', hst']

theorem c8_growing_zero_pad_witness :
    (OpType.textMatch = OpType.textMatch ∨ OpType.textMatch = OpType.phraseMatch)
    ∧ (textMatchQueryBits .textMatch "q" [] idxW).length < 3
    ∧ (execTextMatch .textMatch "q" [] idxW 3 2 ⟨0, none, []⟩).state.cachedBits
        = some (textMatchQueryBits .textMatch "q" [] idxW
            ++ List.replicate (3 - (textMatchQueryBits .textMatch "q" [] idxW).length) false)
    ∧ (execTextMatch .textMatch "q" [] idxW 3 2 ⟨0, none, []⟩).state.cachedValid
        = idxW.isNotNullBits
            ++ List.replicate (3 - (textMatchQueryBits .textMatch "q" [] idxW).length) false :=
  ⟨Or.inl rfl, by decide,
   (c8_growing_zero_pad .textMatch "q" [] idxW 3 2 ⟨0, none, []⟩ (Or.inl rfl)
      (by simp) rfl (by decide) (by decide)).1,
   (c8_growing_zero_pad .textMatch "q" [] idxW 3 2 ⟨0, none, []⟩ (Or.inl rfl)
      (by simp) rfl (by decide) (by decide)).2.1⟩

end MilvusSpec
